import Mathlib

/-!
Shallow embedding of the streaming chat-response reassembly core of
`chatgpt_rs` (`src/types.rs`): the content model (`Role`,
`ChatMessageContent`, `ChatMessage`), the stream reassembler
(`ChatMessage::from_response_chunks`) and the serde-driven content
deserialization (`string_or_array`, `deserialize_maybe_null`).

Rust `panic!` / `.expect(...)` is modelled by `Option` (`none` = panic);
serde deserialization failure is modelled by `Except String`.
-/

set_option maxRecDepth 4096

/-- Embeds `enum Role` from `src/types.rs`: the sender class of a message. -/
inductive Role where
  | System
  | Assistant
  | User
  | Function
deriving DecidableEq, Repr

/-- Embeds `struct ImageUrlContent { url: String }`. -/
structure ImageUrlContent where
  url : String
deriving DecidableEq, Repr

/-- Embeds `enum ChatMessageContent`: either `Text { text }` or
`ImageUrl { image_url }`. -/
inductive ChatMessageContent where
  | Text (text : String)
  | ImageUrl (image_url : ImageUrlContent)
deriving DecidableEq, Repr

/-- Embeds the `fmt::Display` impl for `ChatMessageContent`: a text
segment displays as its text, an image segment as its URL. -/
def ChatMessageContent.render : ChatMessageContent → String
  | .Text text => text
  | .ImageUrl ⟨url⟩ => url

/-- Embeds `struct ChatMessage { role, content }` (the `functions`
feature is off, so there is no `function_call` field). -/
structure ChatMessage where
  role : Role
  content : List ChatMessageContent
deriving DecidableEq, Repr

/-- Embeds `ChatMessage::content(&self) -> String`: fold over the
segments, pushing each segment's `to_string()` onto the accumulator. -/
def ChatMessage.contentString (m : ChatMessage) : String :=
  m.content.foldl (fun acc elem => acc ++ elem.render) ""

/-- Embeds `enum ResponseChunk` from `src/types.rs`. -/
inductive ResponseChunk where
  | Content (delta : String) (response_index : Nat)
  | BeginResponse (role : Role) (response_index : Nat)
  | CloseResponse (response_index : Nat)
  | Done
deriving DecidableEq, Repr

/-- The local state of `ChatMessage::from_response_chunks`: the
`result` vector of placeholder messages and the `responses` vector of
`(Role, String)` accumulators. -/
structure ReassemblyState where
  result : List ChatMessage
  responses : List (Role × String)
deriving DecidableEq, Repr

/-- Embeds `responses.get_mut(response_index)` followed by
`response.push_str(&delta)`: `none` models the `.expect("Invalid
response chunk sequence!")` panic when the index is out of range. -/
def appendDelta : List (Role × String) → Nat → String → Option (List (Role × String))
  | [], _, _ => none
  | (role, s) :: rest, 0, delta => some ((role, s ++ delta) :: rest)
  | pair :: rest, j + 1, delta =>
    match appendDelta rest j delta with
    | some rest2 => some (pair :: rest2)
    | none => none

/-- One iteration of the `for chunk in chunks` loop of
`ChatMessage::from_response_chunks`. `Content` pushes the delta onto
the indexed accumulator (panic — `none` — when absent); `BeginResponse`
appends a fresh accumulator and a placeholder message, ignoring its own
`response_index`; the `_ => {}` arm leaves the state untouched. -/
def stepChunk (st : ReassemblyState) : ResponseChunk → Option ReassemblyState
  | .Content delta response_index =>
    match appendDelta st.responses response_index delta with
    | some responses2 => some { st with responses := responses2 }
    | none => none
  | .BeginResponse role _ =>
    some { result := st.result ++ [{ role := role, content := [] }],
           responses := st.responses ++ [(role, "")] }
  | .CloseResponse _ => some st
  | .Done => some st

/-- The whole `for` loop of `ChatMessage::from_response_chunks`,
threading the state through the chunk list; `none` as soon as one
iteration panics. -/
def runChunks (st : ReassemblyState) : List ResponseChunk → Option ReassemblyState
  | [] => some st
  | c :: cs =>
    match stepChunk st c with
    | some st2 => runChunks st2 cs
    | none => none

/-- Embeds `ChatMessage::from_response_chunks`: run the loop from empty
state, then map each `(role, response)` accumulator to
`ChatMessage::new(role, &[ChatMessageContent::text(response)])`. -/
def ChatMessage.from_response_chunks (chunks : List ResponseChunk) : Option (List ChatMessage) :=
  (runChunks ⟨[], []⟩ chunks).map fun st =>
    st.responses.map fun pair => { role := pair.1, content := [ChatMessageContent.Text pair.2] }

/-- A JSON value, as seen by the serde deserializers of `src/types.rs`
(the transport layer that produces it is out of scope). -/
inductive Json where
  | null
  | bool (b : Bool)
  | num (n : Int)
  | str (s : String)
  | arr (elems : List Json)
  | obj (fields : List (String × Json))

/-- Field lookup in a JSON object, first occurrence wins. -/
def lookupField : List (String × Json) → String → Option Json
  | [], _ => none
  | (k, v) :: rest, key => if k = key then some v else lookupField rest key

/-- Embeds `Option::<String>::deserialize`: JSON `null` is `None`, a
JSON string is `Some`, anything else is a type error. -/
def optionStringFromJson : Json → Except String (Option String)
  | .null => .ok none
  | .str s => .ok (some s)
  | _ => .error "invalid type: expected string or null"

/-- Embeds `fn deserialize_maybe_null`: deserialize an `Option<String>`
and replace `None` by the empty string. -/
def deserialize_maybe_null (j : Json) : Except String String :=
  (optionStringFromJson j).map fun buf => buf.getD ""

/-- Embeds the serde-derived deserializer of `ImageUrlContent`: an
object with a mandatory string field `url`. -/
def imageUrlContentFromJson : Json → Except String ImageUrlContent
  | .obj fields =>
    match lookupField fields "url" with
    | some (.str u) => .ok ⟨u⟩
    | some _ => .error "invalid type for field url"
    | none => .error "missing field url"
  | _ => .error "invalid type: expected struct ImageUrlContent"

/-- Embeds the serde-derived deserializer of `ChatMessageContent`,
internally tagged by `type` (`rename_all = "snake_case"`): tag `text`
reads the mandatory field `text` through `deserialize_maybe_null`
(a field that is absent is a `missing field` error, exactly as serde
treats a `deserialize_with` field without a `default`); tag
`image_url` reads the mandatory field `image_url`; any other tag is an
`unknown variant` error. -/
def chatMessageContentFromJson : Json → Except String ChatMessageContent
  | .obj fields =>
    match lookupField fields "type" with
    | some (.str "text") =>
      match lookupField fields "text" with
      | some tj => (deserialize_maybe_null tj).map ChatMessageContent.Text
      | none => .error "missing field text"
    | some (.str "image_url") =>
      match lookupField fields "image_url" with
      | some ij => (imageUrlContentFromJson ij).map ChatMessageContent.ImageUrl
      | none => .error "missing field image_url"
    | some (.str other) => .error ("unknown variant " ++ other)
    | some _ => .error "invalid type for tag"
    | none => .error "missing field type"
  | _ => .error "invalid type: expected ChatMessageContent"

/-- Element-wise deserialization of a `Vec<ChatMessageContent>` (the
`visit_seq` arm delegates to the derived `Vec` deserializer). -/
def contentListFromJson : List Json → Except String (List ChatMessageContent)
  | [] => .ok []
  | j :: rest => do
    let c ← chatMessageContentFromJson j
    let cs ← contentListFromJson rest
    .ok (c :: cs)

/-- Embeds `fn string_or_array`: `visit_str` wraps the bare string as a
single text segment; `visit_seq` parses a list of tagged segments; the
visitor implements no other `visit_*`, so any other JSON shape is the
`expecting` error. -/
def string_or_array : Json → Except String (List ChatMessageContent)
  | .str s => .ok [ChatMessageContent.Text s]
  | .arr elems => contentListFromJson elems
  | _ => .error "string or list of ChatMessageContent"

/-- Specification-side helper: the concatenation, in order, of the
deltas of all `Content` chunks carrying `response_index = i`. -/
def deltasFor (i : Nat) : List ResponseChunk → String
  | [] => ""
  | .Content d j :: rest => (if j = i then d else "") ++ deltasFor i rest
  | _ :: rest => deltasFor i rest

/-- Specification-side helper: the roles of the `BeginResponse` chunks,
in order of appearance. -/
def beginsOf : List ResponseChunk → List Role
  | [] => []
  | .BeginResponse r _ :: rest => r :: beginsOf rest
  | _ :: rest => beginsOf rest

/-- Specification-side helper: how many `BeginResponse` chunks a list
holds. -/
def countBegins : List ResponseChunk → Nat
  | [] => 0
  | .BeginResponse _ _ :: rest => countBegins rest + 1
  | _ :: rest => countBegins rest

/-- Specification-side helper: the `response_index` values carried by
the `BeginResponse` chunks, in order of appearance. -/
def beginIndices : List ResponseChunk → List Nat
  | [] => []
  | .BeginResponse _ i :: rest => i :: beginIndices rest
  | _ :: rest => beginIndices rest

/-- Specification-side helper: the accumulators created by the
`BeginResponse` chunks of the list when `base` slots already exist:
the k-th new accumulator carries the k-th begin's role and the deltas
addressed to slot `base + k` among the chunks after that begin. -/
def newSlots : List ResponseChunk → Nat → List (Role × String)
  | [], _ => []
  | .BeginResponse r _ :: rest, base => (r, deltasFor base rest) :: newSlots rest (base + 1)
  | _ :: rest, base => newSlots rest base

/-- Specification-side helper: extend each already-existing accumulator
(the one at absolute position `i`, `i + 1`, ...) by the deltas the
chunk list addresses to it. -/
def bumpSlots : List (Role × String) → Nat → List ResponseChunk → List (Role × String)
  | [], _, _ => []
  | (r, s) :: rest, i, cs => (r, s ++ deltasFor i cs) :: bumpSlots rest (i + 1) cs

/-- Decides that every `Content` chunk addresses a slot opened by an
earlier `BeginResponse`, starting from `opened` already-open slots. -/
def wellIndexedFrom (opened : Nat) : List ResponseChunk → Bool
  | [] => true
  | .Content _ i :: rest => decide (i < opened) && wellIndexedFrom opened rest
  | .BeginResponse _ _ :: rest => wellIndexedFrom (opened + 1) rest
  | _ :: rest => wellIndexedFrom opened rest

/-- Recognizes the chunks handled by the `_ => {}` arm of the loop. -/
def isCloseOrDone : ResponseChunk → Bool
  | .CloseResponse _ => true
  | .Done => true
  | _ => false

/-- Two chunks are equal up to the `response_index` of a
`BeginResponse`. -/
def chunkMatches : ResponseChunk → ResponseChunk → Bool
  | .BeginResponse r1 _, .BeginResponse r2 _ => r1 == r2
  | a, b => a == b

/-- Two chunk lists are pointwise equal up to the `response_index`
fields of their `BeginResponse` chunks. -/
def sameExceptBeginIdx : List ResponseChunk → List ResponseChunk → Bool
  | [], [] => true
  | a :: as, b :: bs => chunkMatches a b && sameExceptBeginIdx as bs
  | _, _ => false

theorem runChunks_append (st : ReassemblyState) (xs ys : List ResponseChunk) :
    runChunks st (xs ++ ys) = (runChunks st xs).bind fun st1 => runChunks st1 ys := by
  induction xs generalizing st with
  | nil => rfl
  | cons c cs ih =>
    simp only [List.cons_append, runChunks]
    cases stepChunk st c with
    | some st2 => exact ih st2
    | none => rfl

theorem appendDelta_length (resp resp2 : List (Role × String)) (j : Nat) (d : String)
    (h : appendDelta resp j d = some resp2) : resp2.length = resp.length := by
  induction resp generalizing j resp2 with
  | nil => simp [appendDelta] at h
  | cons p rest ih =>
    obtain ⟨r, s⟩ := p
    cases j with
    | zero =>
      simp only [appendDelta, Option.some.injEq] at h
      subst h
      rfl
    | succ j =>
      cases eq : appendDelta rest j d with
      | none => simp [appendDelta, eq] at h
      | some rest2 =>
        simp only [appendDelta, eq, Option.some.injEq] at h
        subst h
        simpa using ih rest2 j eq

theorem appendDelta_none (resp : List (Role × String)) (j : Nat) (d : String)
    (h : resp.length ≤ j) : appendDelta resp j d = none := by
  induction resp generalizing j with
  | nil => rfl
  | cons p rest ih =>
    obtain ⟨r, s⟩ := p
    cases j with
    | zero => simp at h
    | succ j =>
      have : appendDelta rest j d = none := ih j (by simpa using h)
      simp [appendDelta, this]

theorem appendDelta_total (resp : List (Role × String)) (j : Nat) (d : String)
    (h : j < resp.length) : ∃ resp2, appendDelta resp j d = some resp2 := by
  induction resp generalizing j with
  | nil => simp at h
  | cons p rest ih =>
    obtain ⟨r, s⟩ := p
    cases j with
    | zero => exact ⟨_, rfl⟩
    | succ j =>
      obtain ⟨rest2, eq⟩ := ih j (by simpa using h)
      exact ⟨(r, s) :: rest2, by simp [appendDelta, eq]⟩

theorem appendDelta_lt (resp resp2 : List (Role × String)) (j : Nat) (d : String)
    (h : appendDelta resp j d = some resp2) : j < resp.length := by
  by_contra hge
  rw [appendDelta_none resp j d (by omega)] at h
  exact Option.noConfusion h

theorem runChunks_responses_length (cs : List ResponseChunk) :
    ∀ st st', runChunks st cs = some st' →
      st'.responses.length = st.responses.length + countBegins cs := by
  induction cs with
  | nil =>
    intro st st' h
    simp only [runChunks, Option.some.injEq] at h
    subst h
    rfl
  | cons c rest ih =>
    intro st st' h
    match c with
    | .Content d j =>
      cases eq : appendDelta st.responses j d with
      | none => simp [runChunks, stepChunk, eq] at h
      | some resp2 =>
        have h2 : runChunks { st with responses := resp2 } rest = some st' := by
          simpa [runChunks, stepChunk, eq] using h
        have := ih _ _ h2
        simpa [countBegins, appendDelta_length _ _ _ _ eq] using this
    | .BeginResponse r x =>
      have h2 : runChunks
          ⟨st.result ++ [⟨r, []⟩], st.responses ++ [(r, "")]⟩ rest = some st' := by
        simpa [runChunks, stepChunk] using h
      have := ih _ _ h2
      simp only [countBegins]
      simp at this
      omega
    | .CloseResponse x =>
      have h2 : runChunks st rest = some st' := by simpa [runChunks, stepChunk] using h
      simpa [countBegins] using ih _ _ h2
    | .Done =>
      have h2 : runChunks st rest = some st' := by simpa [runChunks, stepChunk] using h
      simpa [countBegins] using ih _ _ h2

theorem bumpSlots_nil (resp : List (Role × String)) (i : Nat) : bumpSlots resp i [] = resp := by
  induction resp generalizing i with
  | nil => rfl
  | cons p rest ih =>
    obtain ⟨r, s⟩ := p
    simp [bumpSlots, deltasFor, String.append_empty, ih]

theorem bumpSlots_cons_skip (resp : List (Role × String)) (i : Nat) (c : ResponseChunk)
    (cs : List ResponseChunk) (h : ∀ k, i ≤ k → deltasFor k (c :: cs) = deltasFor k cs) :
    bumpSlots resp i (c :: cs) = bumpSlots resp i cs := by
  induction resp generalizing i with
  | nil => rfl
  | cons p rest ih =>
    obtain ⟨r, s⟩ := p
    simp only [bumpSlots, h i (Nat.le_refl i)]
    rw [ih (i + 1) (fun k hk => h k (by omega))]

theorem deltasFor_begin (k : Nat) (r : Role) (x : Nat) (cs : List ResponseChunk) :
    deltasFor k (ResponseChunk.BeginResponse r x :: cs) = deltasFor k cs := rfl

theorem deltasFor_close (k : Nat) (x : Nat) (cs : List ResponseChunk) :
    deltasFor k (ResponseChunk.CloseResponse x :: cs) = deltasFor k cs := rfl

theorem deltasFor_done (k : Nat) (cs : List ResponseChunk) :
    deltasFor k (ResponseChunk.Done :: cs) = deltasFor k cs := rfl

theorem deltasFor_content_ne (k : Nat) (d : String) (j : Nat) (cs : List ResponseChunk)
    (h : j ≠ k) : deltasFor k (ResponseChunk.Content d j :: cs) = deltasFor k cs := by
  simp [deltasFor, h, String.empty_append]

theorem bumpSlots_appendDelta (resp resp2 : List (Role × String)) (j : Nat) (d : String)
    (i : Nat) (cs : List ResponseChunk) (h : appendDelta resp j d = some resp2) :
    bumpSlots resp2 i cs = bumpSlots resp i (ResponseChunk.Content d (i + j) :: cs) := by
  induction resp generalizing resp2 j i with
  | nil => simp [appendDelta] at h
  | cons p rest ih =>
    obtain ⟨r, s⟩ := p
    cases j with
    | zero =>
      simp only [appendDelta, Option.some.injEq] at h
      subst h
      simp only [bumpSlots, deltasFor, Nat.add_zero, if_pos rfl]
      rw [String.append_assoc]
      rw [bumpSlots_cons_skip rest (i + 1) _ cs
        (fun k hk => deltasFor_content_ne k d i cs (by omega))]
      simp
    | succ j =>
      cases eq : appendDelta rest j d with
      | none => simp [appendDelta, eq] at h
      | some rest2 =>
        simp only [appendDelta, eq, Option.some.injEq] at h
        subst h
        simp only [bumpSlots]
        rw [deltasFor_content_ne i d (i + (j + 1)) cs (by omega)]
        rw [ih rest2 j (i + 1) eq]
        have harith : i + 1 + j = i + (j + 1) := by omega
        rw [harith]

theorem bumpSlots_append (a b : List (Role × String)) (i : Nat) (cs : List ResponseChunk) :
    bumpSlots (a ++ b) i cs = bumpSlots a i cs ++ bumpSlots b (i + a.length) cs := by
  induction a generalizing i with
  | nil => simp [bumpSlots]
  | cons p rest ih =>
    obtain ⟨r, s⟩ := p
    have harith : i + 1 + rest.length = i + (rest.length + 1) := by omega
    simp only [List.cons_append, bumpSlots, List.length_cons, List.append_eq]
    rw [ih (i + 1), harith]

theorem runChunks_responses_spec (cs : List ResponseChunk) :
    ∀ st st', runChunks st cs = some st' →
      st'.responses = bumpSlots st.responses 0 cs ++ newSlots cs st.responses.length := by
  induction cs with
  | nil =>
    intro st st' h
    simp only [runChunks, Option.some.injEq] at h
    subst h
    simp [bumpSlots_nil, newSlots]
  | cons c rest ih =>
    intro st st' h
    match c with
    | .Content d j =>
      cases eq : appendDelta st.responses j d with
      | none => simp [runChunks, stepChunk, eq] at h
      | some resp2 =>
        have h2 : runChunks { st with responses := resp2 } rest = some st' := by
          simpa [runChunks, stepChunk, eq] using h
        have hspec := ih _ _ h2
        simp only at hspec
        rw [hspec, appendDelta_length _ _ _ _ eq,
          bumpSlots_appendDelta _ _ _ _ _ _ eq, Nat.zero_add]
        rfl
    | .BeginResponse r x =>
      have h2 : runChunks
          ⟨st.result ++ [⟨r, []⟩], st.responses ++ [(r, "")]⟩ rest = some st' := by
        simpa [runChunks, stepChunk] using h
      have hspec := ih _ _ h2
      simp only [List.length_append, List.length_cons, List.length_nil] at hspec
      rw [hspec, bumpSlots_append]
      simp only [bumpSlots, bumpSlots_nil, String.empty_append, Nat.zero_add]
      rw [bumpSlots_cons_skip st.responses 0 _ rest (fun k hk => deltasFor_begin k r x rest)]
      simp [newSlots, deltasFor_begin, List.append_assoc]
    | .CloseResponse x =>
      have h2 : runChunks st rest = some st' := by simpa [runChunks, stepChunk] using h
      have hspec := ih _ _ h2
      rw [hspec,
        bumpSlots_cons_skip st.responses 0 _ rest (fun k hk => deltasFor_close k x rest)]
      rfl
    | .Done =>
      have h2 : runChunks st rest = some st' := by simpa [runChunks, stepChunk] using h
      have hspec := ih _ _ h2
      rw [hspec,
        bumpSlots_cons_skip st.responses 0 _ rest (fun k hk => deltasFor_done k rest)]
      rfl

theorem from_response_chunks_spec (chunks : List ResponseChunk) (msgs : List ChatMessage)
    (h : ChatMessage.from_response_chunks chunks = some msgs) :
    msgs = (newSlots chunks 0).map
      fun pair => { role := pair.1, content := [ChatMessageContent.Text pair.2] } := by
  unfold ChatMessage.from_response_chunks at h
  cases eq : runChunks ⟨[], []⟩ chunks with
  | none => rw [eq] at h; exact Option.noConfusion h
  | some st =>
    rw [eq] at h
    rw [Option.map] at h
    simp only [Option.some.injEq] at h
    subst h
    have := runChunks_responses_spec chunks _ _ eq
    simp only at this
    rw [this]
    rfl

theorem newSlots_roles (cs : List ResponseChunk) :
    ∀ base, (newSlots cs base).map Prod.fst = beginsOf cs := by
  induction cs with
  | nil => intro base; rfl
  | cons c rest ih =>
    intro base
    match c with
    | .Content d j => simpa [newSlots, beginsOf] using ih base
    | .BeginResponse r x => simpa [newSlots, beginsOf] using ih (base + 1)
    | .CloseResponse x => simpa [newSlots, beginsOf] using ih base
    | .Done => simpa [newSlots, beginsOf] using ih base

theorem newSlots_length (cs : List ResponseChunk) :
    ∀ base, (newSlots cs base).length = countBegins cs := by
  induction cs with
  | nil => intro base; rfl
  | cons c rest ih =>
    intro base
    match c with
    | .Content d j => simpa [newSlots, countBegins] using ih base
    | .BeginResponse r x => simpa [newSlots, countBegins] using ih (base + 1)
    | .CloseResponse x => simpa [newSlots, countBegins] using ih base
    | .Done => simpa [newSlots, countBegins] using ih base

theorem newSlots_deltas (cs : List ResponseChunk) :
    ∀ st st', runChunks st cs = some st' → ∀ k r s,
      (newSlots cs st.responses.length).get? k = some (r, s) →
      s = deltasFor (st.responses.length + k) cs := by
  induction cs with
  | nil => intro st st' h k r s hk; simp [newSlots] at hk
  | cons c rest ih =>
    intro st st' h k r s hk
    match c with
    | .BeginResponse r0 x =>
      have h2 : runChunks
          ⟨st.result ++ [⟨r0, []⟩], st.responses ++ [(r0, "")]⟩ rest = some st' := by
        simpa [runChunks, stepChunk] using h
      cases k with
      | zero =>
        simp only [newSlots, List.get?] at hk
        cases hk
        rfl
      | succ k =>
        simp only [newSlots, List.get?] at hk
        have := ih _ _ h2 k r s (by simpa using hk)
        simp only [List.length_append, List.length_cons, List.length_nil] at this
        rw [this, deltasFor_begin]
        have harith : st.responses.length + 1 + k = st.responses.length + (k + 1) := by omega
        rw [harith]
    | .Content d j =>
      cases eq : appendDelta st.responses j d with
      | none => simp [runChunks, stepChunk, eq] at h
      | some resp2 =>
        have h2 : runChunks { st with responses := resp2 } rest = some st' := by
          simpa [runChunks, stepChunk, eq] using h
        have hlen : resp2.length = st.responses.length := appendDelta_length _ _ _ _ eq
        have hj : j < st.responses.length := appendDelta_lt _ _ _ _ eq
        have := ih _ _ h2 k r s (by simpa [hlen] using hk)
        simp only [hlen] at this
        rw [this, deltasFor_content_ne _ _ _ _ (by omega)]
    | .CloseResponse x =>
      have h2 : runChunks st rest = some st' := by simpa [runChunks, stepChunk] using h
      rw [deltasFor_close]
      exact ih _ _ h2 k r s hk
    | .Done =>
      have h2 : runChunks st rest = some st' := by simpa [runChunks, stepChunk] using h
      rw [deltasFor_done]
      exact ih _ _ h2 k r s hk

theorem runChunks_total (cs : List ResponseChunk) :
    ∀ st, wellIndexedFrom st.responses.length cs = true →
      ∃ st', runChunks st cs = some st' := by
  induction cs with
  | nil => exact fun st _ => ⟨st, rfl⟩
  | cons c rest ih =>
    intro st h
    match c with
    | .Content d j =>
      simp only [wellIndexedFrom, Bool.and_eq_true, decide_eq_true_eq] at h
      obtain ⟨resp2, eq⟩ := appendDelta_total st.responses j d h.1
      have hlen : resp2.length = st.responses.length := appendDelta_length _ _ _ _ eq
      obtain ⟨st', hrun⟩ := ih { st with responses := resp2 } (by simpa [hlen] using h.2)
      exact ⟨st', by simpa [runChunks, stepChunk, eq] using hrun⟩
    | .BeginResponse r x =>
      simp only [wellIndexedFrom] at h
      obtain ⟨st', hrun⟩ := ih ⟨st.result ++ [⟨r, []⟩], st.responses ++ [(r, "")]⟩
        (by simpa using h)
      exact ⟨st', by simpa [runChunks, stepChunk] using hrun⟩
    | .CloseResponse x =>
      simp only [wellIndexedFrom] at h
      obtain ⟨st', hrun⟩ := ih st h
      exact ⟨st', by simpa [runChunks, stepChunk] using hrun⟩
    | .Done =>
      simp only [wellIndexedFrom] at h
      obtain ⟨st', hrun⟩ := ih st h
      exact ⟨st', by simpa [runChunks, stepChunk] using hrun⟩

theorem runChunks_filter (cs : List ResponseChunk) :
    ∀ st, runChunks st (cs.filter fun c => !isCloseOrDone c) = runChunks st cs := by
  induction cs with
  | nil => intro st; rfl
  | cons c rest ih =>
    intro st
    match c with
    | .Content d j =>
      simp only [List.filter_cons, isCloseOrDone, Bool.not_false, if_pos]
      simp only [runChunks]
      cases stepChunk st (.Content d j) with
      | some st2 => exact ih st2
      | none => rfl
    | .BeginResponse r x =>
      simp only [List.filter_cons, isCloseOrDone, Bool.not_false, if_pos]
      simp only [runChunks, stepChunk]
      exact ih _
    | .CloseResponse x =>
      simp only [List.filter_cons, isCloseOrDone, Bool.not_true]
      simp only [runChunks, stepChunk]
      simpa using ih st
    | .Done =>
      simp only [List.filter_cons, isCloseOrDone, Bool.not_true]
      simp only [runChunks, stepChunk]
      simpa using ih st

theorem stepChunk_matches (a b : ResponseChunk) (h : chunkMatches a b = true)
    (st : ReassemblyState) : stepChunk st a = stepChunk st b := by
  cases a <;> cases b <;> simp_all [chunkMatches, stepChunk]

theorem runChunks_matches (a b : List ResponseChunk) (h : sameExceptBeginIdx a b = true) :
    ∀ st, runChunks st a = runChunks st b := by
  induction a generalizing b with
  | nil =>
    cases b with
    | nil => intro st; rfl
    | cons b bs => simp [sameExceptBeginIdx] at h
  | cons c cs ih =>
    cases b with
    | nil => simp [sameExceptBeginIdx] at h
    | cons b bs =>
      simp only [sameExceptBeginIdx, Bool.and_eq_true] at h
      intro st
      simp only [runChunks, stepChunk_matches c b h.1 st]
      cases stepChunk st b with
      | some st2 => exact ih bs h.2 st2
      | none => rfl

/-- Claim C1: on the event sequence BeginResponse(Assistant, 0),
BeginResponse(Assistant, 1), ContentDelta("Hi", 1), ContentDelta("Hello", 0),
ContentDelta(" there", 0), Done, the reassembler returns exactly two messages
in index order: position 0 holds "Hello there", position 1 holds "Hi", both
with role Assistant. -/
theorem C1_interleaving_correctness :
    ChatMessage.from_response_chunks
      [.BeginResponse .Assistant 0, .BeginResponse .Assistant 1,
       .Content "Hi" 1, .Content "Hello" 0, .Content " there" 0, .Done]
    = some [⟨.Assistant, [.Text "Hello there"]⟩, ⟨.Assistant, [.Text "Hi"]⟩] := rfl

/-- Claim C2: a chunk sequence holding a `Content` event whose
`response_index` exceeds (or equals) the number of slots opened by the
`BeginResponse` events before it makes `from_response_chunks` fail (the
`.expect` panic, modelled by `none`) instead of returning a message list. -/
theorem C2_unopened_index_fails (pre post : List ResponseChunk) (d : String) (i : Nat)
    (h : countBegins pre ≤ i) :
    ChatMessage.from_response_chunks (pre ++ ResponseChunk.Content d i :: post) = none := by
  unfold ChatMessage.from_response_chunks
  rw [runChunks_append]
  cases eq : runChunks ⟨[], []⟩ pre with
  | none => rfl
  | some st =>
    have hlen := runChunks_responses_length pre _ _ eq
    simp only [List.length_nil, Nat.zero_add] at hlen
    have hnone : appendDelta st.responses i d = none := appendDelta_none _ _ _ (by omega)
    simp [runChunks, stepChunk, hnone]

/-- Witness for C2: the single-event sequence ContentDelta("x", 0) fails. -/
theorem C2_unopened_index_fails_witness :
    ChatMessage.from_response_chunks [ResponseChunk.Content "x" 0] = none :=
  C2_unopened_index_fails [] [] "x" 0 (by decide)

/-- Claim C3 is false as stated: on BeginResponse(Assistant, 0) followed by
BeginResponse(User, 0) — two begins carrying the same `response_index` —
`from_response_chunks` returns two messages although only one distinct
`response_index` was seen, so the output is not one message per distinct
index. -/
theorem C3_counterexample :
    (ChatMessage.from_response_chunks
        [.BeginResponse .Assistant 0, .BeginResponse .User 0]).map List.length = some 2 ∧
    (beginIndices [.BeginResponse .Assistant 0, .BeginResponse .User 0]).dedup.length = 1 := by
  constructor
  · rfl
  · decide

/-- Claim C3 (amended): when the `BeginResponse` events carry the dense
ascending indices 0, 1, 2, ... (each equal to the count of earlier begins)
and reassembly succeeds, the output has one message per distinct
`response_index`, in ascending index order: the message at position `k` has
exactly one `Text` segment holding the concatenation, in delta order, of all
deltas addressed to index `k`. -/
theorem C3_output_contract (chunks : List ResponseChunk) (msgs : List ChatMessage)
    (hidx : beginIndices chunks = List.range (countBegins chunks))
    (h : ChatMessage.from_response_chunks chunks = some msgs) :
    msgs.length = (beginIndices chunks).dedup.length ∧
    msgs.map ChatMessage.role = beginsOf chunks ∧
    ∀ (k : Nat) (hk : k < msgs.length),
      msgs[k].content = [ChatMessageContent.Text (deltasFor k chunks)] := by
  have hspec := from_response_chunks_spec chunks msgs h
  have hrun : ∃ st, runChunks ⟨[], []⟩ chunks = some st := by
    unfold ChatMessage.from_response_chunks at h
    cases eq : runChunks ⟨[], []⟩ chunks with
    | none => rw [eq] at h; exact Option.noConfusion h
    | some st => exact ⟨st, rfl⟩
  obtain ⟨st, hst⟩ := hrun
  refine ⟨?_, ?_, ?_⟩
  · rw [hspec, List.length_map, newSlots_length, hidx,
      List.Nodup.dedup (List.nodup_range _), List.length_range]
  · rw [hspec, List.map_map]
    exact newSlots_roles chunks 0
  · intro k hk
    subst hspec
    have hk2 : k < (newSlots chunks 0).length := by simpa using hk
    rw [List.getElem_map]
    have hget : (newSlots chunks 0).get? k = some ((newSlots chunks 0)[k]) := by
      rw [List.get?_eq_getElem?, List.getElem?_eq_getElem hk2]
    have hdelta := newSlots_deltas chunks ⟨[], []⟩ st hst k
      ((newSlots chunks 0)[k]).1 ((newSlots chunks 0)[k]).2 (by rw [Prod.mk.eta]; exact hget)
    simp only [List.length_nil, Nat.zero_add] at hdelta
    simp only [hdelta]

/-- Witness for the amended C3 on the two-response interleaved stream of C1. -/
theorem C3_output_contract_witness :
    ([⟨.Assistant, [.Text "Hello there"]⟩, ⟨.Assistant, [.Text "Hi"]⟩]
        : List ChatMessage).length
      = (beginIndices [.BeginResponse .Assistant 0, .BeginResponse .Assistant 1,
          .Content "Hi" 1, .Content "Hello" 0, .Content " there" 0,
          .Done]).dedup.length ∧
    ([⟨.Assistant, [.Text "Hello there"]⟩, ⟨.Assistant, [.Text "Hi"]⟩]
        : List ChatMessage).map ChatMessage.role
      = beginsOf [.BeginResponse .Assistant 0, .BeginResponse .Assistant 1,
          .Content "Hi" 1, .Content "Hello" 0, .Content " there" 0, .Done] ∧
    ∀ (k : Nat) (hk : k < ([⟨.Assistant, [.Text "Hello there"]⟩,
          ⟨.Assistant, [.Text "Hi"]⟩] : List ChatMessage).length),
      ([⟨.Assistant, [.Text "Hello there"]⟩,
          ⟨.Assistant, [.Text "Hi"]⟩] : List ChatMessage)[k].content
        = [ChatMessageContent.Text (deltasFor k
            [.BeginResponse .Assistant 0, .BeginResponse .Assistant 1,
             .Content "Hi" 1, .Content "Hello" 0, .Content " there" 0, .Done])] :=
  C3_output_contract
    [.BeginResponse .Assistant 0, .BeginResponse .Assistant 1,
     .Content "Hi" 1, .Content "Hello" 0, .Content " there" 0, .Done]
    [⟨.Assistant, [.Text "Hello there"]⟩, ⟨.Assistant, [.Text "Hi"]⟩]
    (by decide) rfl

/-- Claim C4: for every string `s`, deserializing message content given as the
bare string `s` yields the same stored value — a single `Text` segment holding
`s` — as deserializing the one-element list containing the tagged object
with type `text` and text `s`. -/
theorem C4_scalar_list_equivalence (s : String) :
    string_or_array (Json.str s) = Except.ok [ChatMessageContent.Text s] ∧
    string_or_array (Json.arr [Json.obj [("type", Json.str "text"), ("text", Json.str s)]])
      = Except.ok [ChatMessageContent.Text s] ∧
    string_or_array (Json.str s)
      = string_or_array
          (Json.arr [Json.obj [("type", Json.str "text"), ("text", Json.str s)]]) :=
  ⟨rfl, rfl, rfl⟩

/-- Claim C5 is false as stated: a content element of type `text` whose
`text` field is absent does not yield an empty text segment — it is a
deserialization error (serde reports the missing field), so the "or one
where the text value is absent" half of the claim fails. -/
theorem C5_counterexample :
    string_or_array (Json.arr [Json.obj [("type", Json.str "text")]])
      = Except.error "missing field text" ∧
    (string_or_array (Json.arr [Json.obj [("type", Json.str "text")]])).toOption
      = none :=
  ⟨rfl, rfl⟩

/-- Claim C5 (amended): a content element with an explicit `null` text value
deserializes to a `Text` segment holding the empty string (never an error),
because `deserialize_maybe_null` turns `None` into `""`; an element whose
`text` field is entirely absent, however, is a `missing field`
deserialization error. -/
theorem C5_null_text_normalization :
    string_or_array (Json.arr [Json.obj [("type", Json.str "text"), ("text", Json.null)]])
      = Except.ok [ChatMessageContent.Text ""] ∧
    deserialize_maybe_null Json.null = Except.ok "" ∧
    chatMessageContentFromJson (Json.obj [("type", Json.str "text")])
      = Except.error "missing field text" :=
  ⟨rfl, rfl, rfl⟩

/-- Claim C6: rendering a single-text-segment message with `content()` and
re-ingesting the rendered string through the scalar branch of the content
deserializer reproduces the message's stored content exactly. -/
theorem C6_round_trip (r : Role) (t : String) :
    string_or_array
        (Json.str (ChatMessage.contentString ⟨r, [ChatMessageContent.Text t]⟩))
      = Except.ok (ChatMessage.mk r [ChatMessageContent.Text t]).content := by
  have hc : ChatMessage.contentString ⟨r, [ChatMessageContent.Text t]⟩ = t := by
    simp only [ChatMessage.contentString, List.foldl_cons, List.foldl_nil,
      ChatMessageContent.render, String.empty_append]
  rw [hc]
  rfl

/-- Claim C7: `CloseResponse` and `Done` leave both the `responses`
accumulator and the `result` list untouched; consequently deleting every
`CloseResponse`/`Done` chunk, or inserting one anywhere, does not change the
output of `from_response_chunks`. -/
theorem C7_close_done_frame :
    (∀ (st : ReassemblyState) (i : Nat),
      stepChunk st (ResponseChunk.CloseResponse i) = some st) ∧
    (∀ st : ReassemblyState, stepChunk st ResponseChunk.Done = some st) ∧
    (∀ chunks : List ResponseChunk,
      ChatMessage.from_response_chunks (chunks.filter fun c => !isCloseOrDone c)
        = ChatMessage.from_response_chunks chunks) ∧
    (∀ (pre post : List ResponseChunk) (c : ResponseChunk), isCloseOrDone c = true →
      ChatMessage.from_response_chunks (pre ++ c :: post)
        = ChatMessage.from_response_chunks (pre ++ post)) := by
  refine ⟨fun st i => rfl, fun st => rfl, ?_, ?_⟩
  · intro chunks
    unfold ChatMessage.from_response_chunks
    rw [runChunks_filter]
  · intro pre post c hc
    unfold ChatMessage.from_response_chunks
    rw [runChunks_append, runChunks_append]
    have hstep : ∀ st1 : ReassemblyState, runChunks st1 (c :: post) = runChunks st1 post := by
      intro st1
      cases c with
      | CloseResponse i => rfl
      | Done => rfl
      | Content d j => simp [isCloseOrDone] at hc
      | BeginResponse r x => simp [isCloseOrDone] at hc
    simp only [hstep]

/-- Witness for C7: inserting a `Done` chunk after a `BeginResponse` leaves
the output unchanged. -/
theorem C7_close_done_frame_witness :
    ChatMessage.from_response_chunks
        [ResponseChunk.BeginResponse Role.Assistant 0, ResponseChunk.Done]
      = ChatMessage.from_response_chunks [ResponseChunk.BeginResponse Role.Assistant 0] :=
  C7_close_done_frame.2.2.2 [ResponseChunk.BeginResponse Role.Assistant 0] []
    ResponseChunk.Done rfl

/-- Claim C8: two chunk sequences that are pointwise equal except for the
`response_index` values carried by their `BeginResponse` events produce
identical outputs — the reassembler never reads a `BeginResponse`'s index and
relies on append position alone. -/
theorem C8_begin_index_ignored (a b : List ResponseChunk)
    (h : sameExceptBeginIdx a b = true) :
    ChatMessage.from_response_chunks a = ChatMessage.from_response_chunks b := by
  unfold ChatMessage.from_response_chunks
  rw [runChunks_matches a b h]

/-- Witness for C8: changing a `BeginResponse` index from 0 to 7 leaves the
output unchanged. -/
theorem C8_begin_index_ignored_witness :
    ChatMessage.from_response_chunks
        [ResponseChunk.BeginResponse Role.Assistant 0, ResponseChunk.Content "x" 0]
      = ChatMessage.from_response_chunks
        [ResponseChunk.BeginResponse Role.Assistant 7, ResponseChunk.Content "x" 0] :=
  C8_begin_index_ignored
    [ResponseChunk.BeginResponse Role.Assistant 0, ResponseChunk.Content "x" 0]
    [ResponseChunk.BeginResponse Role.Assistant 7, ResponseChunk.Content "x" 0]
    (by decide)

/-- Claim C9: `content()` returns the separator-free concatenation, in segment
order, of each segment's render; a `Text` segment renders as its stored text
and an `ImageUrl` segment as its URL, so [Text "a", ImageUrl "http://x",
Text "b"] renders to "ahttp://xb". -/
theorem C9_display_concatenation (m : ChatMessage) :
    m.contentString = String.join (m.content.map ChatMessageContent.render) ∧
    ChatMessageContent.render (ChatMessageContent.Text "a") = "a" ∧
    ChatMessageContent.render (ChatMessageContent.ImageUrl ⟨"http://x"⟩) = "http://x" ∧
    ChatMessage.contentString
        ⟨Role.Assistant, [.Text "a", .ImageUrl ⟨"http://x"⟩, .Text "b"]⟩
      = "ahttp://xb" := by
  refine ⟨?_, rfl, rfl, rfl⟩
  unfold ChatMessage.contentString String.join
  rw [List.foldl_map]

/-- Claim C10: whenever every `Content` chunk addresses an already-opened
slot, reassembly succeeds and returns exactly one message per
`BeginResponse` event (even when several begins carry the same
`response_index`), the k-th message's role being the k-th begin's role, and
the empty chunk sequence yields the empty message list. -/
theorem C10_message_per_begin (chunks : List ResponseChunk)
    (h : wellIndexedFrom 0 chunks = true) :
    ∃ msgs, ChatMessage.from_response_chunks chunks = some msgs ∧
      msgs.length = countBegins chunks ∧
      msgs.map ChatMessage.role = beginsOf chunks ∧
      ChatMessage.from_response_chunks [] = some [] := by
  obtain ⟨st', hrun⟩ := runChunks_total chunks ⟨[], []⟩ h
  have hsome : ChatMessage.from_response_chunks chunks
      = some (st'.responses.map
          fun pair => { role := pair.1, content := [ChatMessageContent.Text pair.2] }) := by
    unfold ChatMessage.from_response_chunks
    rw [hrun]
    rfl
  have hspec := from_response_chunks_spec chunks _ hsome
  refine ⟨_, hsome, ?_, ?_, rfl⟩
  · rw [hspec, List.length_map, newSlots_length]
  · rw [hspec, List.map_map]
    exact newSlots_roles chunks 0

/-- Witness for C10 on a stream whose two `BeginResponse` events both carry
index 5: two messages come back, with the two begin roles in order. -/
theorem C10_message_per_begin_witness :
    ∃ msgs, ChatMessage.from_response_chunks
        [ResponseChunk.BeginResponse Role.Assistant 5,
         ResponseChunk.BeginResponse Role.User 5, ResponseChunk.Content "x" 1]
      = some msgs ∧
      msgs.length = countBegins
        [ResponseChunk.BeginResponse Role.Assistant 5,
         ResponseChunk.BeginResponse Role.User 5, ResponseChunk.Content "x" 1] ∧
      msgs.map ChatMessage.role = beginsOf
        [ResponseChunk.BeginResponse Role.Assistant 5,
         ResponseChunk.BeginResponse Role.User 5, ResponseChunk.Content "x" 1] ∧
      ChatMessage.from_response_chunks [] = some [] :=
  C10_message_per_begin
    [ResponseChunk.BeginResponse Role.Assistant 5,
     ResponseChunk.BeginResponse Role.User 5, ResponseChunk.Content "x" 1]
    (by decide)
